import Mathlib

/-!
Verification development for the Cloudflare OTA update worker.

This file gives a shallow embedding of the worker's two route handlers
(`manifestHandler` in `routes/manifest.ts`, `uploadHandler` in
`routes/upload.ts`) together with the database helpers (`utils/db.ts`),
the storage wrapper (`utils/storage.ts`, class `R2Storage`) and the hash
helper (`utils/crypto.ts`), and proves properties of them.

Modelling conventions:
- File contents (JS `ArrayBuffer`) are modelled as `String`; `TextEncoder`
  and `TextDecoder` are the identity under this convention.
- Platform primitives that live outside the repository (`crypto.subtle`
  SHA-256, `JSON.parse`, the `mrmime` MIME table) are abstract parameters
  collected in the `JsExt` structure; theorems quantify over them.
- The D1 tables are association lists kept in insertion order; the R2
  bucket is a list of key/value pairs with unique keys.
- `ORDER BY created_at DESC` is modelled as a stable insertion sort on the
  `created_at` string (SQLite BINARY collation is lexicographic byte order,
  which agrees with `String` order on the ASCII timestamps involved).
- JS `parseInt` produces `Option Int`, where `none` stands for `NaN`; the
  JS comparison `NaN < n` is false, which `jsLtOne` reproduces.
- The `waitUntil` download-tracking write is represented by a list of
  `WorkerEffect` values returned next to the response: the response value
  is computed without reference to the effects, mirroring that the write
  is scheduled but never awaited by the response path.
-/

namespace OTA

/-- JSON values, the result type of the abstract `JSON.parse`. -/
inductive Json where
  | null
  | bool (b : Bool)
  | num (n : Int)
  | str (s : String)
  | arr (elems : List Json)
  | obj (fields : List (String × Json))

/-- External platform functions the worker calls but does not define:
SHA-256 digests (32 raw bytes), `JSON.parse` (`none` models a thrown
`SyntaxError`), and the `mrmime` extension-to-MIME lookup. -/
structure JsExt where
  sha256 : String → List Nat
  parseJson : String → Option Json
  stringifyPretty : Json → String
  mimeLookup : String → Option String

/-- JS truthiness of a JSON value (`null`, `false`, `0`, `""` are falsy). -/
def jsTruthyJson : Json → Bool
  | .null => false
  | .bool b => b
  | .num n => n != 0
  | .str s => s != ""
  | .arr _ => true
  | .obj _ => true

/-- JS truthiness of a possibly-undefined string (`undefined` and `""` are falsy). -/
def jsTruthyStr : Option String → Bool
  | none => false
  | some s => s != ""

/-- JS property access `j.k` on a JSON value: `undefined` (`none`) unless
`j` is an object with field `k`; on objects the first binding wins. -/
def Json.getField : Json → String → Option Json
  | .obj fs, k => fs.lookup k
  | _, _ => none

/-- The JS strict comparison `j === s` of a JSON value against a string. -/
def jsonIsStr (j : Json) (s : String) : Bool :=
  match j with
  | .str t => t == s
  | _ => false

mutual

/-- JS string coercion of a JSON value, as used by `"." + assetMeta.ext`. -/
def jsDisplay : Json → String
  | .null => "null"
  | .bool b => if b then "true" else "false"
  | .num n => toString n
  | .str s => s
  | .arr xs => String.intercalate "," (jsDisplayList xs)
  | .obj _ => "[object Object]"

/-- String coercions of a list of JSON values. -/
def jsDisplayList : List Json → List String
  | [] => []
  | x :: xs => jsDisplay x :: jsDisplayList xs

end

/-- Whitespace characters skipped by JS `parseInt`. -/
def isJsSpace (c : Char) : Bool :=
  c == ' ' || c == '\t' || c == '\n' || c == '\r' || c.toNat == 11 || c.toNat == 12

/-- JS `startsWith`, computed on the character list. -/
def strStartsWith (s p : String) : Bool :=
  s.toList.take p.toList.length == p.toList

/-- JS `endsWith`, computed on the character list. -/
def strEndsWith (s p : String) : Bool :=
  s.toList.reverse.take p.toList.length == p.toList.reverse

/-- JS `split` on a one-character separator (the only form the worker
uses); the empty string yields a singleton list, as in JS. -/
def strSplit (c : Char) (s : String) : List String :=
  (s.toList.splitOn c).map String.mk

/-- JS `trim`. -/
def strTrim (s : String) : String :=
  String.mk (((s.toList.dropWhile isJsSpace).reverse.dropWhile isJsSpace).reverse)

/-- JS `toLowerCase` (over the ASCII range relevant to file extensions). -/
def strToLower (s : String) : String :=
  String.mk (s.toList.map Char.toLower)

/-- JS `parseInt(s, 10)`: skip leading whitespace, optional sign, then the
longest digit run; `none` models `NaN` (no digits found). -/
def parseIntJs (s : String) : Option Int :=
  let cs := s.toList.dropWhile isJsSpace
  let signAndRest : Int × List Char :=
    match cs with
    | '-' :: rest => (-1, rest)
    | '+' :: rest => (1, rest)
    | _ => (1, cs)
  let ds := signAndRest.2.takeWhile Char.isDigit
  if ds.isEmpty then none
  else some (signAndRest.1 * (ds.foldl (fun acc c => acc * 10 + (c.toNat - 48)) 0 : Nat))

/-- The JS comparison `v < 1` where `v` may be `NaN` (`none`): every
comparison against `NaN` is false. -/
def jsLtOne : Option Int → Bool
  | some k => k < 1
  | none => false

/-- JS `filename.lastIndexOf(".")` followed by `substring(dotIndex)`:
the suffix starting at the last dot, `none` when there is no dot. -/
def lastDotSuffix (s : String) : Option String :=
  if s.toList.contains '.' then
    some (String.mk ('.' :: (s.toList.reverse.takeWhile (fun c => c ≠ '.')).reverse))
  else none

/-- First value of a repeated form field, i.e. `fields[key]?.[0]` after the
handler groups `formData` entries by field name in arrival order. -/
def fieldFirst (fields : List (String × String)) (k : String) : Option String :=
  ((fields.filter (fun kv => kv.1 == k)).head?).map (fun kv => kv.2)

/-- The base64 alphabet used by `btoa`. -/
def base64Chars : String := "ABCDEFGHIJKLMNOPQRSTUVWXYZabcdefghijklmnopqrstuvwxyz0123456789+/"

/-- Character of the base64 alphabet at index `n`. -/
def base64Char (n : Nat) : Char := (base64Chars.toList.getD n 'A')

/-- Standard base64 of a byte list, with `=` padding (JS `btoa`). -/
def base64Encode : List Nat → String
  | [] => ""
  | [b1] =>
    String.mk [base64Char (b1 / 4), base64Char (b1 % 4 * 16), '=', '=']
  | [b1, b2] =>
    String.mk [base64Char (b1 / 4), base64Char (b1 % 4 * 16 + b2 / 16),
               base64Char (b2 % 16 * 4), '=']
  | b1 :: b2 :: b3 :: rest =>
    String.mk [base64Char (b1 / 4), base64Char (b1 % 4 * 16 + b2 / 16),
               base64Char (b2 % 16 * 4 + b3 / 64), base64Char (b3 % 64)]
      ++ base64Encode rest

/-- The URL-safe unpadded variant: plus to minus, slash to underscore,
padding stripped. -/
def urlSafeBase64 (bs : List Nat) : String :=
  String.mk ((base64Encode bs).toList.filterMap fun c =>
    if c == '+' then some '-'
    else if c == '/' then some '_'
    else if c == '=' then none
    else some c)

/-- Lower-case hex digit of a value below 16, as produced by `toString(16)`. -/
def hexDigit (n : Nat) : Char :=
  if n < 10 then Char.ofNat (48 + n) else Char.ofNat (87 + n)

/-- `b.toString(16).padStart(2, "0")` for a byte value. -/
def hexByte (b : Nat) : String := String.mk [hexDigit (b / 16 % 16), hexDigit (b % 16)]

/-- Lower-case hex of a byte list. -/
def hexEncode (bs : List Nat) : String := String.join (bs.map hexByte)

/-- The two encodings accepted by `computeFileHash`. -/
inductive HashEncoding where
  | base64
  | hex
deriving DecidableEq, Repr

/-- `utils/crypto.ts` `computeFileHash`: the SHA-256 digest of the buffer in
URL-safe unpadded base64 or lower-case padded hex. -/
def computeFileHash (E : JsExt) (buffer : String) : HashEncoding → String
  | .base64 => urlSafeBase64 (E.sha256 buffer)
  | .hex => hexEncode (E.sha256 buffer)

/-- One stored asset of an update, as kept in the catalog row. -/
structure AssetDescriptor where
  key : String
  hash : String
  fileExtension : String
  contentType : String
  url : String
deriving DecidableEq, Repr

/-- One row of the `updates` table (drizzle schema in `db/schema.ts`), with
`assets_json` kept structurally (its JSON round trip is the identity). -/
structure UpdateRow where
  id : String
  appId : String
  channel : String
  runtimeVersion : String
  platform : String
  createdAt : String
  launchAsset : AssetDescriptor
  assets : List AssetDescriptor
  commitHash : Option String
  expoConfigJson : Option String
  downloadCount : Nat
  lastDownloadedAt : Option String
deriving DecidableEq, Repr

/-- One row of the `apps` table. -/
structure AppRow where
  id : String
  name : String
  apiKey : String
deriving DecidableEq, Repr

/-- The R2 bucket: stored objects as key/content pairs. -/
abbrev Store := List (String × String)

/-- `R2Storage` put: overwrite the key with the new content. -/
def storePut (store : Store) (k v : String) : Store :=
  (store.filter (fun kv => kv.1 ≠ k)) ++ [(k, v)]

/-- `R2Storage.downloadFile`: the stored object, or `null` when absent. -/
def storeLookup (store : Store) (k : String) : Option String :=
  ((store.filter (fun kv => kv.1 == k)).head?).map (fun kv => kv.2)

/-- `R2Storage.deleteFolder`: normalise the folder path to end in a slash,
then delete every object whose key starts with that. The recursion on
truncated listings re-lists until exhaustion; the model lists everything
at once. -/
def deleteFolder (store : Store) (folderPath : String) : Store :=
  let pfx := if strEndsWith folderPath "/" then folderPath else folderPath ++ "/"
  store.filter (fun kv => !(strStartsWith kv.1 pfx))

/-- `R2Storage.getContentType`: last dot-separated chunk lower-cased, the
`.hbc` special case, then the `mrmime` table with an octet-stream fallback. -/
def getContentType (E : JsExt) (filePath : String) : String :=
  let ext := strToLower (((strSplit '.' filePath).getLast?).getD "")
  if ext == "hbc" then "application/javascript"
  else (E.mimeLookup ext).getD "application/octet-stream"

/-- The `WHERE` clause shared by `getLatestUpdate` and `cleanupOldUpdates`:
exact match on the (app, channel, runtime, platform) cohort. -/
def matchesCohort (appId channel runtimeVersion platform : String) (r : UpdateRow) : Bool :=
  r.appId == appId && r.channel == channel &&
    r.runtimeVersion == runtimeVersion && r.platform == platform

/-- The row ordering of `ORDER BY created_at DESC`. -/
def rowRecencyGe (a b : UpdateRow) : Prop := b.createdAt.toList ≤ a.createdAt.toList

instance : DecidableRel rowRecencyGe := fun a b =>
  inferInstanceAs (Decidable (b.createdAt.toList ≤ a.createdAt.toList))

instance : IsTotal UpdateRow rowRecencyGe :=
  ⟨fun a b => (le_total b.createdAt.toList a.createdAt.toList).imp id id⟩

instance : IsTrans UpdateRow rowRecencyGe :=
  ⟨fun _ _ _ hab hbc => le_trans hbc hab⟩

/-- `ORDER BY created_at DESC` as a stable insertion sort. -/
def sortByCreatedAtDesc (rows : List UpdateRow) : List UpdateRow :=
  rows.insertionSort rowRecencyGe

/-- `utils/db.ts` `getAppByApiKey`: first row of the `apps` table with the
given key (`LIMIT 1`). -/
def getAppByApiKey (apps : List AppRow) (apiKey : String) : Option AppRow :=
  (apps.filter (fun a => a.apiKey == apiKey)).head?

/-- SQLite `x OR NULL` / drizzle read-back normalisation: both `saveUpdate`
(`metadata.commitHash || null`) and `getLatestUpdate`
(`row.commitHash || undefined`) collapse the empty string to an absent value. -/
def collapseEmpty : Option String → Option String
  | some s => if s == "" then none else some s
  | none => none

/-- `utils/db.ts` `saveUpdate`: single-row insert; the `id` primary key
makes a colliding insert throw (modelled as `none`). -/
def saveUpdate (db : List UpdateRow) (row : UpdateRow) : Option (List UpdateRow) :=
  if db.any (fun r => r.id == row.id) then none else some (db ++ [row])

/-- `utils/db.ts` `getLatestUpdate`: most recent row for the exact cohort,
converted to `IUpdateMetadata` (which drops SQL `NULL` and empty optionals). -/
def getLatestUpdate (db : List UpdateRow) (appId channel runtimeVersion platform : String) :
    Option UpdateRow :=
  match (sortByCreatedAtDesc (db.filter (matchesCohort appId channel runtimeVersion platform))).head? with
  | none => none
  | some row =>
    some { row with
            commitHash := collapseEmpty row.commitHash,
            expoConfigJson := collapseEmpty row.expoConfigJson }

/-- `utils/db.ts` `cleanupOldUpdates`: select the cohort ordered by
`created_at DESC`; if at most `keepCount` rows match, do nothing; otherwise
delete every row whose id is among those after the first `keepCount`, and
return the deleted ids. Returns the ids together with the updated table. -/
def cleanupOldUpdates (db : List UpdateRow) (appId channel runtimeVersion platform : String)
    (keepCount : Nat) : List String × List UpdateRow :=
  let rows := sortByCreatedAtDesc (db.filter (matchesCohort appId channel runtimeVersion platform))
  if rows.length ≤ keepCount then ([], db)
  else
    let idsToDelete := (rows.drop keepCount).map (fun r => r.id)
    if idsToDelete.isEmpty then ([], db)
    else (idsToDelete, db.filter (fun r => !(idsToDelete.contains r.id)))

/-- The headers of a `GET /manifest` request (absent headers are `none`). -/
structure ManifestRequest where
  appId : Option String
  runtimeVersion : Option String
  platform : Option String
  channelName : Option String
  currentUpdateId : Option String
  protocolVersion : Option String
deriving DecidableEq, Repr

/-- The parsed output of `manifestHeadersSchema`. -/
structure ManifestHeaders where
  appId : String
  runtimeVersion : String
  platform : String
  channelName : String
  currentUpdateId : Option String
  protocolVersion : Option Int
deriving DecidableEq, Repr

/-- `routes/manifest.ts` `manifestHeadersSchema`: the four identifying
headers are required (non-empty, platform in the ios/android enum); the
current-update id is optional; the protocol version defaults to `"0"` and
is then `parseInt`ed without any integer check, so an unparsable header
yields `NaN` (`none`) rather than a validation failure. -/
def manifestHeadersSchema (req : ManifestRequest) : Option ManifestHeaders :=
  match req.appId, req.runtimeVersion, req.platform, req.channelName with
  | some a, some rv, some p, some c =>
    if a != "" && rv != "" && (p == "ios" || p == "android") && c != "" then
      some ⟨a, rv, p, c, req.currentUpdateId, parseIntJs ((req.protocolVersion).getD "0")⟩
    else none
  | _, _, _, _ => none

/-- Manifest object delivered to the client (`IUpdateManifest`); `metadata`
is the singleton `{ channel }` object, `extra` carries the recovered config
and the channel. -/
structure UpdateManifest where
  id : String
  createdAt : String
  runtimeVersion : String
  launchAsset : AssetDescriptor
  assets : List AssetDescriptor
  metadataChannel : String
  extraExpoClient : Json
  extraChannel : String

/-- Body content of one multipart part: either the manifest or the
`noUpdateAvailable` directive. -/
inductive MultipartContent where
  | manifestBody (m : UpdateManifest)
  | noUpdateDirective

/-- A manifest-route response: either `new Response(null, { status })`, or
the multipart response built by `sendMultipartResponse` (HTTP 200 with the
protocol-version echo, sfv marker, no-cache and multipart headers). -/
inductive ManifestResponse where
  | emptyResponse (status : Nat)
  | multipartResponse (fieldName : String) (content : MultipartContent)
      (protocolVersion : Option Int)

/-- `sendMultipartResponse`: wrap the content in the single-part multipart
body; the HTTP status is 200. -/
def sendMultipartResponse (content : MultipartContent) (fieldName : String)
    (protocolVersion : Option Int) : ManifestResponse :=
  .multipartResponse fieldName content protocolVersion

/-- `routes/manifest.ts` `sendNoUpdateAvailable`: protocol version below 1
gets `new Response(null, { status: 404 })`; otherwise the multipart
`directive` part with the `noUpdateAvailable` payload. `NaN` is not below
1 in JS, so it takes the multipart branch. -/
def sendNoUpdateAvailable (protocolVersion : Option Int) : ManifestResponse :=
  if jsLtOne protocolVersion then .emptyResponse 404
  else sendMultipartResponse .noUpdateDirective "directive" protocolVersion

/-- HTTP status of a manifest-route response. -/
def ManifestResponse.status : ManifestResponse → Nat
  | .emptyResponse s => s
  | .multipartResponse _ _ _ => 200

/-- Whether a response delivers a manifest part. -/
def isManifestDelivery : ManifestResponse → Bool
  | .multipartResponse "manifest" (.manifestBody _) _ => true
  | _ => false

/-- The background work scheduled through `executionCtx.waitUntil`: the SQL
statement incrementing `download_count` and stamping `last_downloaded_at`
for the given update id. -/
inductive WorkerEffect where
  | downloadTracking (updateId : String)

/-- The currency short-circuit guard
`currentUpdateId && currentUpdateId === latestUpdate.id`. -/
def currencyHit (currentUpdateId : Option String) (latest : UpdateRow) : Bool :=
  match currentUpdateId with
  | some cu => cu != "" && cu == latest.id
  | none => false

/-- Canonical path of an update's persisted expo config snapshot. -/
def expoConfigPath (appId channel runtimeVersion updateId : String) : String :=
  appId ++ "/" ++ channel ++ "/" ++ runtimeVersion ++ "/" ++ updateId ++ "/expoConfig.json"

/-- The storage leg of the config fallback: read `expoConfig.json`, decode
and parse it; a missing object or a parse failure leaves the config as the
empty object the handler initialised. -/
def storeConfigRead (parse : String → Option Json) (stored : Option String) : Json :=
  match stored with
  | some content => (parse content).getD (Json.obj [])
  | none => Json.obj []

/-- The config fallback chain of `manifestHandler`: parse the row config if
truthy; on absence or parse failure read `expoConfig.json` from storage; on
absence or parse failure there, the empty object. -/
def resolveExpoClient (E : JsExt) (store : Store) (rowConfig : Option String)
    (cfgPath : String) : Json :=
  if jsTruthyStr rowConfig then
    match E.parseJson ((rowConfig).getD "") with
    | some j => j
    | none => storeConfigRead E.parseJson (storeLookup store cfgPath)
  else storeConfigRead E.parseJson (storeLookup store cfgPath)

/-- `routes/manifest.ts` `manifestHandler`: validate headers (opaque 404 on
failure), look up the latest cohort update (no-update response when absent
or when the client is current), recover the expo config, schedule the
download-tracking write, and deliver the manifest part. -/
def manifestHandler (E : JsExt) (db : List UpdateRow) (store : Store)
    (req : ManifestRequest) : ManifestResponse × List WorkerEffect :=
  match manifestHeadersSchema req with
  | none => (.emptyResponse 404, [])
  | some h =>
    match getLatestUpdate db h.appId h.channelName h.runtimeVersion h.platform with
    | none => (sendNoUpdateAvailable h.protocolVersion, [])
    | some latest =>
      if currencyHit h.currentUpdateId latest then
        (sendNoUpdateAvailable h.protocolVersion, [])
      else
        let cfgPath := expoConfigPath h.appId h.channelName h.runtimeVersion latest.id
        let expoClient := resolveExpoClient E store latest.expoConfigJson cfgPath
        let manifest : UpdateManifest :=
          { id := latest.id
            createdAt := latest.createdAt
            runtimeVersion := latest.runtimeVersion
            launchAsset := latest.launchAsset
            assets := latest.assets
            metadataChannel := h.channelName
            extraExpoClient := expoClient
            extraChannel := h.channelName }
        (sendMultipartResponse (.manifestBody manifest) "manifest" h.protocolVersion,
         [.downloadTracking latest.id])

/-- One file part of the upload form (`File` entries of the form data). -/
structure UploadFile where
  fieldName : String
  filename : String
  data : String
deriving DecidableEq, Repr

/-- A `POST /upload` request: the two headers the handler reads, the scalar
form fields in arrival order, and the file parts in arrival order. -/
structure UploadRequest where
  clientIP : Option String
  apiKey : Option String
  fields : List (String × String)
  files : List UploadFile
deriving DecidableEq, Repr

/-- Worker environment bindings used by the upload route. JS coerces the
`MAX_UPDATES_TO_KEEP` string numerically wherever it is compared, so it is
modelled as the coerced integer. -/
structure WorkerEnv where
  allowedUploadIPs : Option String
  maxUpdatesToKeep : Int
  bucketUrl : String
deriving DecidableEq, Repr

/-- First four colon-separated groups of an IPv6 address. -/
def ipv6RoutingPart (ip : String) : String :=
  String.intercalate ":" ((strSplit ':' ip).take 4)

/-- One allow-list entry check: exact match, or IPv6 prefix match on the
first four groups when both sides contain a colon. -/
def ipEntryAllows (clientIP : Option String) (allowedIP : String) : Bool :=
  (clientIP == some allowedIP) ||
    (match clientIP with
     | some cip =>
       cip.toList.contains ':' && allowedIP.toList.contains ':' &&
         (ipv6RoutingPart cip == ipv6RoutingPart allowedIP)
     | none => false)

/-- The network-level gate of `uploadHandler`: with no configured (or blank)
allow-list every request passes; otherwise the `cf-connecting-ip` header
must be present, non-empty and match an entry. -/
def ipGatePasses (env : WorkerEnv) (clientIP : Option String) : Bool :=
  match env.allowedUploadIPs with
  | none => true
  | some allowedIPs =>
    if strTrim allowedIPs == "" then true
    else
      let allowedList := ((strSplit ',' allowedIPs).map strTrim).filter (fun ip => ip ≠ "")
      let isAllowed := allowedList.any (ipEntryAllows clientIP)
      jsTruthyStr clientIP && isAllowed

/-- Output of `uploadFormFieldsSchema`: the validated scalar fields, with
the two JSON blobs already put through their `transform`s. -/
structure UploadFields where
  channel : String
  runtimeVersion : String
  platform : String
  commitHash : Option String
  expoConfig : Option Json
  metadata : Option Json

/-- The zod `transform` on the optional JSON-string fields: absent or empty
yields `null`; otherwise `JSON.parse`, with a parse failure also yielding
`null` instead of a validation error. -/
def jsonFieldTransform (E : JsExt) : Option String → Option Json
  | none => none
  | some s => if s == "" then none else E.parseJson s

/-- `routes/upload.ts` `uploadFormFieldsSchema`: `channel` and
`runtimeVersion` required non-empty, `platform` in the ios/android enum,
`commitHash` optional, `expoConfig` and `metadata` silently degraded to
`null` when absent, empty or unparsable. -/
def uploadFormFieldsSchema (E : JsExt) (fields : List (String × String)) :
    Option UploadFields :=
  match fieldFirst fields "channel", fieldFirst fields "runtimeVersion",
        fieldFirst fields "platform" with
  | some c, some rv, some p =>
    if c != "" && rv != "" && (p == "ios" || p == "android") then
      some ⟨c, rv, p, fieldFirst fields "commitHash",
            jsonFieldTransform E (fieldFirst fields "expoConfig"),
            jsonFieldTransform E (fieldFirst fields "metadata")⟩
    else none
  | _, _, _ => none

/-- `metadata.fileMetadata?.[platform]?.assets || []` guarded by
`if (metadata)`: `none` when the metadata blob is `null` or falsy, otherwise
the assets value with undefined-or-falsy collapsed to the empty array. -/
def extractAssetMetadata (metadata : Option Json) (platform : String) : Option Json :=
  match metadata with
  | some m =>
    if jsTruthyJson m then
      some (match ((m.getField "fileMetadata").bind (fun fm => fm.getField platform)).bind
                (fun pm => pm.getField "assets") with
            | some a => if jsTruthyJson a then a else Json.arr []
            | none => Json.arr [])
    else none
  | none => none

/-- The bundle-part predicate: field name `bundle`, or a filename ending in
`.bundle`. -/
def isBundlePart (f : UploadFile) : Bool :=
  f.fieldName == "bundle" || strEndsWith f.filename ".bundle"

/-- The additional-asset predicate: field name `assets` or an `asset-`
prefixed field name. -/
def isAssetPart (f : UploadFile) : Bool :=
  f.fieldName == "assets" || strStartsWith f.fieldName "asset-"

/-- Bundle file extension: from the filename's last dot, with the `.hbc`
fallback when the filename is empty or dotless. -/
def bundleExtension (filename : String) : String :=
  if filename != "" then
    match lastDotSuffix filename with
    | some e => e
    | none => ".hbc"
  else ".hbc"

/-- `asset.filename || "asset-" ++ index`. -/
def assetName (f : UploadFile) (index : Nat) : String :=
  if f.filename != "" then f.filename else "asset-" ++ toString index

/-- The extension hint lookup for one asset: the first metadata entry whose
`path` strictly equals `assets/<filename>`. -/
def assetHint (hints : Option Json) (filename : String) : Option Json :=
  match hints with
  | some (Json.arr hs) =>
    hs.find? (fun h =>
      match h.getField "path" with
      | some pj => jsonIsStr pj ("assets/" ++ filename)
      | none => false)
  | _ => none

/-- The resolved extension of one asset: the truthy `ext` hint with a dot
prepended, else the filename's own dot suffix, else empty. -/
def assetExtension (hint : Option Json) (filename : String) : String :=
  let extFromMeta :=
    match hint with
    | some h =>
      match h.getField "ext" with
      | some e => if jsTruthyJson e then "." ++ jsDisplay e else ""
      | none => ""
    | none => ""
  if extFromMeta != "" then extFromMeta
  else
    match lastDotSuffix filename with
    | some e => e
    | none => ""

/-- Public URL of a stored object (`R2Storage.getFileUrl`). -/
def fileUrl (env : WorkerEnv) (filePath : String) : String :=
  env.bucketUrl ++ "/" ++ filePath

/-- Outcome of the upload route: HTTP status, JSON body when one is sent,
both stores after the request, and (ghost output) the row handed to
`saveUpdate`, recorded to state properties of the committed update. -/
structure UploadOutcome where
  status : Nat
  body : Option Json
  db : List UpdateRow
  store : Store
  insertedRow : Option UpdateRow

/-- The opaque `new Response(null, { status: 404 })` upload outcome. -/
def notFoundOutcome (db : List UpdateRow) (store : Store) : UploadOutcome :=
  ⟨404, none, db, store, none⟩

/-- The `{ success: true }` acknowledgment body. -/
def successBody : Json := Json.obj [("success", Json.bool true)]

/-- Descriptor of one additional asset as computed inside the `Promise.all`
callback: content hashes, hint-resolved extension and public URL. -/
def buildAssetDescriptor (E : JsExt) (env : WorkerEnv) (basePath : String)
    (hints : Option Json) (index : Nat) (f : UploadFile) : AssetDescriptor :=
  let filename := assetName f index
  let ext := assetExtension (assetHint hints filename) filename
  { key := computeFileHash E f.data .hex
    hash := computeFileHash E f.data .base64
    fileExtension := ext
    contentType := getContentType E ext
    url := fileUrl env (basePath ++ "/" ++ filename) }

/-- Whether the extension-hint value would make `assetMetadata.find` throw:
a truthy non-array (`.find` is only defined on arrays; `null` never reaches
the call because of the optional chaining). -/
def assetMetadataBroken : Option Json → Bool
  | some (Json.arr _) => false
  | some j => jsTruthyJson j
  | none => false

/-- The `IUpdateMetadata` row assembled by `uploadHandler` and handed to
`saveUpdate`: the generated id and timestamp, both hash encodings of the
bundle as the launch asset's hash and key, and the processed asset list.
`expo_config_json` is never set by this handler (`updateMetadata` carries no
such field, so `saveUpdate` stores NULL). -/
def buildUpdateRow (E : JsExt) (env : WorkerEnv) (app : AppRow) (f : UploadFields)
    (bundleFile : UploadFile) (assetFiles : List UploadFile)
    (updateId createdAt : String) : UpdateRow :=
  let basePath := app.id ++ "/" ++ f.channel ++ "/" ++ f.runtimeVersion ++ "/" ++ updateId
  let bundleExt := bundleExtension bundleFile.filename
  { id := updateId
    appId := app.id
    channel := f.channel
    runtimeVersion := f.runtimeVersion
    platform := f.platform
    createdAt := createdAt
    launchAsset :=
      { key := computeFileHash E bundleFile.data .hex
        hash := computeFileHash E bundleFile.data .base64
        fileExtension := bundleExt
        contentType := getContentType E bundleExt
        url := fileUrl env (basePath ++ "/bundle" ++ bundleExt) }
    assets := (assetFiles.enum).map (fun p => buildAssetDescriptor E env basePath
      (extractAssetMetadata f.metadata f.platform) p.1 p.2)
    commitHash := collapseEmpty f.commitHash
    expoConfigJson := none
    downloadCount := 0
    lastDownloadedAt := none }

/-- Storage, hashing and commit stage of `uploadHandler`, entered once the
bundle part exists. Uploads the bundle, uploads every asset (each
`Promise.all` callback stores its file before consulting the hints, so a
broken hints value still stores all assets and then fails the request with
500), optionally persists the config snapshot, inserts the catalog row
(500 on id collision), and runs the retention sweep when configured. -/
def uploadCommit (E : JsExt) (env : WorkerEnv) (db : List UpdateRow) (store : Store)
    (app : AppRow) (f : UploadFields) (bundleFile : UploadFile)
    (assetFiles : List UploadFile) (updateId createdAt : String) : UploadOutcome :=
  let hints := extractAssetMetadata f.metadata f.platform
  let basePath := app.id ++ "/" ++ f.channel ++ "/" ++ f.runtimeVersion ++ "/" ++ updateId
  let bundleExt := bundleExtension bundleFile.filename
  let bundlePath := basePath ++ "/bundle" ++ bundleExt
  let store1 := storePut store bundlePath bundleFile.data
  let store2 := (assetFiles.enum).foldl
    (fun st p => storePut st (basePath ++ "/" ++ assetName p.2 p.1) p.2.data) store1
  if assetMetadataBroken hints && !assetFiles.isEmpty then
    ⟨500, none, db, store2, none⟩
  else
    let store3 :=
      match f.expoConfig with
      | some cfg =>
        if jsTruthyJson cfg then
          storePut store2 (basePath ++ "/expoConfig.json") (E.stringifyPretty cfg)
        else store2
      | none => store2
    match saveUpdate db (buildUpdateRow E env app f bundleFile assetFiles updateId createdAt) with
    | none => ⟨500, none, db, store3, none⟩
    | some db1 =>
      if env.maxUpdatesToKeep ≤ 0 then
        ⟨200, some successBody, db1, store3,
          some (buildUpdateRow E env app f bundleFile assetFiles updateId createdAt)⟩
      else
        let swept := cleanupOldUpdates db1 app.id f.channel f.runtimeVersion f.platform
          env.maxUpdatesToKeep.toNat
        let store4 := swept.1.foldl
          (fun st i => deleteFolder st (app.id ++ "/" ++ f.channel ++ "/" ++ f.runtimeVersion ++ "/" ++ i)) store3
        ⟨200, some successBody, swept.2, store4,
          some (buildUpdateRow E env app f bundleFile assetFiles updateId createdAt)⟩

/-- Field-validation and artifact-classification stage of `uploadHandler`:
opaque 404 when the scalar fields fail validation or no bundle part exists
(the 404 precedes every write, leaving both stores untouched). -/
def uploadProcess (E : JsExt) (env : WorkerEnv) (db : List UpdateRow) (store : Store)
    (app : AppRow) (fieldsResult : Option UploadFields) (files : List UploadFile)
    (updateId createdAt : String) : UploadOutcome :=
  match fieldsResult with
  | none => notFoundOutcome db store
  | some f =>
    match files.find? isBundlePart with
    | none => notFoundOutcome db store
    | some bundleFile =>
      uploadCommit E env db store app f bundleFile (files.filter isAssetPart) updateId createdAt

/-- `routes/upload.ts` `uploadHandler`: IP gate, API-key authentication
(absent, empty or unknown key is an opaque 404), then field validation and
the storage/commit pipeline. `updateId` stands for the generated
`crypto.randomUUID()` and `createdAt` for `new Date().toISOString()`. -/
def uploadHandler (E : JsExt) (env : WorkerEnv) (apps : List AppRow) (db : List UpdateRow)
    (store : Store) (req : UploadRequest) (updateId createdAt : String) : UploadOutcome :=
  if ipGatePasses env req.clientIP then
    match req.apiKey with
    | some apiKey =>
      if apiKey != "" then
        match getAppByApiKey apps apiKey with
        | some app =>
          uploadProcess E env db store app (uploadFormFieldsSchema E req.fields) req.files
            updateId createdAt
        | none => notFoundOutcome db store
      else notFoundOutcome db store
    | none => notFoundOutcome db store
  else notFoundOutcome db store

/-! ## Spec-side characterisations -/

/-- Modelled from the spec (§4.3.7 / §4.2 `recordDownload`): the
download-tracking write is issued exactly for responses that deliver a
manifest, for the delivered update's id, and never for a no-update or
failure response. -/
def downloadTrackingSpec : ManifestResponse → List WorkerEffect
  | .multipartResponse "manifest" (.manifestBody m) _ => [.downloadTracking m.id]
  | _ => []

/-- Modelled from the spec (§4.3.6 config recovery chain): parse the row
config when it is non-empty; on absence or parse failure use the stored
`expoConfig.json` content; on absence or parse failure there, the empty
object. -/
def configFallbackSpec (parse : String → Option Json) (rowConfig : Option String)
    (stored : Option String) : Json :=
  match rowConfig with
  | some s =>
    if s ≠ "" then (parse s).getD (storeConfigRead parse stored)
    else storeConfigRead parse stored
  | none => storeConfigRead parse stored

/-- The expo-client config of a delivered manifest, if the response carries
one. -/
def deliveredExpoClient : ManifestResponse → Option Json
  | .multipartResponse _ (.manifestBody m) _ => some m.extraExpoClient
  | _ => none

/-! ## Concrete fixtures used by witnesses and counterexamples -/

/-- A concrete instantiation of the platform functions: a toy injective
digest, a `JSON.parse` that understands exactly the object literals used in
witnesses, and an empty MIME table. -/
def extFix : JsExt :=
  { sha256 := fun s => List.replicate 31 0 ++ [s.length % 256]
    parseJson := fun s =>
      if s == "\x7b\x7d" then some (Json.obj [])
      else if s == "\x7b\x22a\x22:1\x7d" then some (Json.obj [("a", Json.num 1)])
      else none
    stringifyPretty := fun _ => "\x7b\x7d"
    mimeLookup := fun _ => none }

/-- Valid manifest headers for the `test-app` cohort with no protocol
version header. -/
def manifestReqP0 : ManifestRequest :=
  ⟨some "test-app", some "1.0.0", some "ios", some "production", none, none⟩

/-- The same request with the app-id header missing. -/
def manifestReqNoApp : ManifestRequest :=
  ⟨none, some "1.0.0", some "ios", some "production", none, none⟩

/-- The same request with an unparsable protocol-version header. -/
def manifestReqNaN : ManifestRequest :=
  ⟨some "test-app", some "1.0.0", some "ios", some "production", none, some "abc"⟩

/-- A catalog row for the `test-app` cohort. -/
def rowU1 : UpdateRow :=
  { id := "update-1"
    appId := "test-app"
    channel := "production"
    runtimeVersion := "1.0.0"
    platform := "ios"
    createdAt := "2024-01-01T00:00:00.000Z"
    launchAsset :=
      { key := "k1", hash := "h1", fileExtension := ".hbc"
        contentType := "application/javascript", url := "https://cdn/x" }
    assets := []
    commitHash := none
    expoConfigJson := some "not json"
    downloadCount := 0
    lastDownloadedAt := none }

/-! ## C1 -/

/-- C1: the spec claims a manifest request with valid headers, effective
protocol version 0 and no update for the cohort is answered with 204 and an
empty body, distinct from the 404 of header-validation failure. The code's
`sendNoUpdateAvailable` instead returns `new Response(null, { status: 404 })`
for every protocol version below 1, indistinguishable from the
header-validation failure: evaluated at the failing input, both the
no-update case and the missing-header case produce an empty 404. The
repository's own manifest test expects 204 for exactly this scenario. -/
theorem manifest_noUpdate_protocol0_is_404_not_204 :
    (manifestHandler extFix [] [] manifestReqP0).1 = .emptyResponse 404
      ∧ (manifestHandler extFix [] [] manifestReqNoApp).1 = .emptyResponse 404 :=
  ⟨rfl, rfl⟩

/-! ## C4 -/

/-- C4 counterexample: a manifest request whose `expo-protocol-version`
header is present but unparsable (`"abc"`), against an empty catalog. The
claim says such a request takes the legacy path (empty-body response); the
code parses the header to `NaN`, `NaN < 1` is false, and the multipart
`noUpdateAvailable` directive path is taken instead. -/
theorem manifest_unparsable_protocol_takes_directive_path :
    (manifestHandler extFix [] [] manifestReqNaN).1
      = .multipartResponse "directive" .noUpdateDirective none :=
  rfl

/-- `manifestHeadersSchema` determines the parsed protocol version as
`parseInt` of the header defaulted to `"0"`. -/
theorem manifestHeadersSchema_protocolVersion {req : ManifestRequest}
    {h : ManifestHeaders} (hv : manifestHeadersSchema req = some h) :
    h.protocolVersion = parseIntJs ((req.protocolVersion).getD "0") := by
  rcases req with ⟨a, rv, p, c, cu, pv⟩
  cases a <;> cases rv <;> cases p <;> cases c <;>
    simp only [manifestHeadersSchema] at hv <;> try cases hv
  split at hv
  · cases hv; rfl
  · cases hv

/-- C4 (amended): a present but unparsable protocol-version header parses
to `NaN`; since the JS comparison `NaN < 1` is false, a no-update response
for such a request is the multipart `noUpdateAvailable` directive, not the
legacy empty response; the legacy empty response is produced exactly for
parsed integer values below 1 (0 and negatives). -/
theorem manifest_protocol_version_edge_policy (E : JsExt) (db : List UpdateRow)
    (store : Store) (req : ManifestRequest) (h : ManifestHeaders) (s : String)
    (hv : manifestHeadersSchema req = some h)
    (hnone : getLatestUpdate db h.appId h.channelName h.runtimeVersion h.platform = none)
    (hs : req.protocolVersion = some s)
    (hnan : parseIntJs s = none) :
    manifestHandler E db store req = (.multipartResponse "directive" .noUpdateDirective none, [])
      ∧ (∀ k : Int, sendNoUpdateAvailable (some k) = .emptyResponse 404 ↔ k < 1) := by
  have hpv : h.protocolVersion = none := by
    rw [manifestHeadersSchema_protocolVersion hv, hs]
    exact hnan
  constructor
  · simp only [manifestHandler, hv, hnone, hpv]
    rfl
  · intro k
    unfold sendNoUpdateAvailable jsLtOne
    by_cases hk : k < 1
    · simp [hk]
    · simp [hk, sendMultipartResponse]

/-- C4 witness: the amended edge policy applied to the `"abc"` header
against an empty catalog. -/
theorem manifest_protocol_version_edge_policy_witness :
    manifestHandler extFix [] [] manifestReqNaN
        = (.multipartResponse "directive" .noUpdateDirective none, [])
      ∧ (∀ k : Int, sendNoUpdateAvailable (some k) = .emptyResponse 404 ↔ k < 1) :=
  manifest_protocol_version_edge_policy extFix [] [] manifestReqNaN
    ⟨"test-app", "1.0.0", "ios", "production", none, none⟩ "abc" rfl rfl rfl rfl

/-! ## C6 -/

/-- C6: the download-tracking write is scheduled exactly for responses that
deliver a manifest, tagged with the delivered update's id, and never for a
no-update, validation-failure or currency response. The effect list is
returned next to the response and the response value is computed without
consulting it, reflecting that the write is handed to `waitUntil` and never
awaited by the response path. -/
theorem manifest_download_tracking_iff_delivery (E : JsExt) (db : List UpdateRow)
    (store : Store) (req : ManifestRequest) :
    (manifestHandler E db store req).2 = downloadTrackingSpec (manifestHandler E db store req).1 := by
  cases hv : manifestHeadersSchema req with
  | none => simp only [manifestHandler, hv]; rfl
  | some h =>
    cases hlu : getLatestUpdate db h.appId h.channelName h.runtimeVersion h.platform with
    | none =>
      simp only [manifestHandler, hv, hlu]
      unfold sendNoUpdateAvailable
      split
      · rfl
      · rfl
    | some latest =>
      by_cases hc : currencyHit h.currentUpdateId latest
      · simp only [manifestHandler, hv, hlu, hc, if_true]
        unfold sendNoUpdateAvailable
        split
        · rfl
        · rfl
      · simp only [manifestHandler, hv, hlu]
        rw [if_neg (by simp [hc])]
        rfl

/-! ## C7 -/

/-- C7: a manifest request with valid headers whose current-update-id
equals the latest update's id gets the no-update response for the
negotiated protocol version, and no manifest is delivered even though a
matching update exists. (Update ids are generated by `crypto.randomUUID`,
hence non-empty, which the JS truthiness guard needs.) -/
theorem manifest_currency_short_circuit (E : JsExt) (db : List UpdateRow)
    (store : Store) (req : ManifestRequest) (h : ManifestHeaders) (u : UpdateRow)
    (hv : manifestHeadersSchema req = some h)
    (hlu : getLatestUpdate db h.appId h.channelName h.runtimeVersion h.platform = some u)
    (hcur : h.currentUpdateId = some u.id)
    (hne : u.id ≠ "") :
    manifestHandler E db store req = (sendNoUpdateAvailable h.protocolVersion, [])
      ∧ isManifestDelivery (manifestHandler E db store req).1 = false := by
  have hhit : currencyHit h.currentUpdateId u = true := by
    unfold currencyHit
    rw [hcur]
    simp [hne]
  have hmain : manifestHandler E db store req = (sendNoUpdateAvailable h.protocolVersion, []) := by
    simp only [manifestHandler, hv, hlu, hhit, if_true]
  refine ⟨hmain, ?_⟩
  rw [hmain]
  unfold sendNoUpdateAvailable
  split
  · rfl
  · rfl

/-- C7 witness: a concrete catalog holding `rowU1` and a request already
running `update-1`. -/
theorem manifest_currency_short_circuit_witness :
    manifestHandler extFix [rowU1] []
        ⟨some "test-app", some "1.0.0", some "ios", some "production", some "update-1", some "1"⟩
      = (sendNoUpdateAvailable (some 1), [])
      ∧ isManifestDelivery (manifestHandler extFix [rowU1] []
          ⟨some "test-app", some "1.0.0", some "ios", some "production", some "update-1", some "1"⟩).1
        = false :=
  manifest_currency_short_circuit extFix [rowU1] []
    ⟨some "test-app", some "1.0.0", some "ios", some "production", some "update-1", some "1"⟩
    ⟨"test-app", "1.0.0", "ios", "production", some "update-1", some 1⟩
    { rowU1 with expoConfigJson := some "not json" }
    rfl rfl rfl (by decide)

/-! ## C5 -/

/-- `getLatestUpdate` never reports an empty-string config (the drizzle
read-back collapses SQL `NULL` and the empty string alike). -/
theorem getLatestUpdate_config_not_empty {db : List UpdateRow}
    {a c rv p : String} {u : UpdateRow}
    (h : getLatestUpdate db a c rv p = some u) : u.expoConfigJson ≠ some "" := by
  unfold getLatestUpdate at h
  cases hh : (sortByCreatedAtDesc (db.filter (matchesCohort a c rv p))).head? with
  | none => rw [hh] at h; cases h
  | some row =>
    rw [hh] at h
    cases h
    simp only [collapseEmpty]
    cases hc : row.expoConfigJson with
    | none => simp
    | some s =>
      by_cases hs : s == ""
      · simp [hs]
      · simp only [hs, if_false, Bool.false_eq_true]
        intro contra
        cases contra
        simp at hs

/-- The inline fallback chain of `manifestHandler` agrees with the
spec-side `configFallbackSpec` chain. -/
theorem resolveExpoClient_eq_spec (E : JsExt) (store : Store)
    (rowConfig : Option String) (cfgPath : String) :
    resolveExpoClient E store rowConfig cfgPath
      = configFallbackSpec E.parseJson rowConfig (storeLookup store cfgPath) := by
  cases rowConfig with
  | none => rfl
  | some s =>
    by_cases hs : s = ""
    · subst hs
      simp [resolveExpoClient, configFallbackSpec, jsTruthyStr]
    · have htr : jsTruthyStr (some s) = true := by simp [jsTruthyStr, hs]
      simp only [resolveExpoClient, configFallbackSpec, htr, if_true, Option.getD_some]
      rw [if_pos hs]
      cases hp : E.parseJson s with
      | none => rfl
      | some j => rfl

/-- C5: for every delivered manifest the `extra.expoClient` config follows
the ordered fallback chain — parsed row config when present and parsable,
otherwise the stored `expoConfig.json` at the update's canonical path,
otherwise the empty object — and the response is still a 200 manifest
delivery whatever fails in the chain. -/
theorem manifest_config_fallback_chain (E : JsExt) (db : List UpdateRow)
    (store : Store) (req : ManifestRequest) (h : ManifestHeaders) (u : UpdateRow)
    (hv : manifestHeadersSchema req = some h)
    (hlu : getLatestUpdate db h.appId h.channelName h.runtimeVersion h.platform = some u)
    (hnohit : currencyHit h.currentUpdateId u = false) :
    isManifestDelivery (manifestHandler E db store req).1 = true
      ∧ (manifestHandler E db store req).1.status = 200
      ∧ deliveredExpoClient (manifestHandler E db store req).1
          = some (configFallbackSpec E.parseJson u.expoConfigJson
              (storeLookup store (expoConfigPath h.appId h.channelName h.runtimeVersion u.id))) := by
  have hmain : (manifestHandler E db store req).1
      = .multipartResponse "manifest"
          (.manifestBody
            { id := u.id
              createdAt := u.createdAt
              runtimeVersion := u.runtimeVersion
              launchAsset := u.launchAsset
              assets := u.assets
              metadataChannel := h.channelName
              extraExpoClient := resolveExpoClient E store u.expoConfigJson
                (expoConfigPath h.appId h.channelName h.runtimeVersion u.id)
              extraChannel := h.channelName })
          h.protocolVersion := by
    simp only [manifestHandler, hv, hlu]
    rw [if_neg (by simp [hnohit])]
    rfl
  rw [hmain]
  refine ⟨rfl, rfl, ?_⟩
  unfold deliveredExpoClient
  rw [resolveExpoClient_eq_spec]

/-- C5 witness: the row config `"not json"` fails to parse, the store holds
a parsable `expoConfig.json`, and the delivered config is the parsed store
object. -/
theorem manifest_config_fallback_chain_witness :
    isManifestDelivery (manifestHandler extFix [rowU1]
        [(expoConfigPath "test-app" "production" "1.0.0" "update-1", "\x7b\x22a\x22:1\x7d")] manifestReqP0).1 = true
      ∧ (manifestHandler extFix [rowU1]
          [(expoConfigPath "test-app" "production" "1.0.0" "update-1", "\x7b\x22a\x22:1\x7d")] manifestReqP0).1.status = 200
      ∧ deliveredExpoClient (manifestHandler extFix [rowU1]
          [(expoConfigPath "test-app" "production" "1.0.0" "update-1", "\x7b\x22a\x22:1\x7d")] manifestReqP0).1
        = some (configFallbackSpec extFix.parseJson (some "not json")
            (storeLookup [(expoConfigPath "test-app" "production" "1.0.0" "update-1", "\x7b\x22a\x22:1\x7d")]
              (expoConfigPath "test-app" "production" "1.0.0" "update-1"))) :=
  manifest_config_fallback_chain extFix [rowU1]
    [(expoConfigPath "test-app" "production" "1.0.0" "update-1", "\x7b\x22a\x22:1\x7d")] manifestReqP0
    ⟨"test-app", "1.0.0", "ios", "production", none, some 0⟩
    { rowU1 with expoConfigJson := some "not json" }
    rfl rfl rfl

/-! ## C9 -/

/-- C9: `deleteFolder` normalises the folder path to end in a slash and
deletes exactly the objects whose key starts with that slash-terminated
prefix; in particular a key that merely extends the folder path
character-wise without the separator always survives. -/
theorem deleteFolder_slash_boundary (store : Store) (folderPath : String) :
    (∀ e, e ∈ deleteFolder store folderPath ↔
        e ∈ store ∧ strStartsWith e.1
          (if strEndsWith folderPath "/" then folderPath else folderPath ++ "/") = false)
      ∧ (∀ e ∈ store, strEndsWith folderPath "/" = false →
          strStartsWith e.1 (folderPath ++ "/") = false → e ∈ deleteFolder store folderPath) := by
  constructor
  · intro e
    unfold deleteFolder
    rw [List.mem_filter]
    simp [Bool.not_eq_true']
  · intro e he hnend hstart
    unfold deleteFolder
    rw [List.mem_filter]
    rw [hnend]
    simp only [Bool.false_eq_true, if_false, Bool.not_eq_true']
    exact ⟨he, hstart⟩

/-- C9 witness: deleting `a/b/c` removes `a/b/c/y` but keeps `a/b/cd/x`,
whose key extends `a/b/c` without the separator. -/
theorem deleteFolder_slash_boundary_witness :
    (("a/b/cd/x", "1") ∈ deleteFolder [("a/b/cd/x", "1"), ("a/b/c/y", "2")] "a/b/c")
      ∧ (("a/b/c/y", "2") ∉ deleteFolder [("a/b/cd/x", "1"), ("a/b/c/y", "2")] "a/b/c") := by
  have h := deleteFolder_slash_boundary [("a/b/cd/x", "1"), ("a/b/c/y", "2")] "a/b/c"
  constructor
  · exact h.2 ("a/b/cd/x", "1") (by decide) (by decide) (by decide)
  · intro hc
    have hm := (h.1 ("a/b/c/y", "2")).mp hc
    have hfalse : strStartsWith "a/b/c/y" "a/b/c/" = false := by
      have hif : (if strEndsWith "a/b/c" "/" then ("a/b/c" : String)
          else "a/b/c" ++ "/") = "a/b/c/" := by decide
      rw [hif] at hm
      exact hm.2
    exact absurd hfalse (by decide)

/-! ## C8 -/

/-- C8: a publish request that passes the IP gate, authenticates, and
validates its scalar fields, but has no file part with field name `bundle`
and none with a `.bundle` filename, is answered with the opaque 404 before
any write: the catalog and the object store come back untouched and no row
is handed to `saveUpdate`. -/
theorem upload_missing_bundle_rejected (E : JsExt) (env : WorkerEnv)
    (apps : List AppRow) (db : List UpdateRow) (store : Store) (req : UploadRequest)
    (updateId createdAt : String) (app : AppRow) (f : UploadFields) (k : String)
    (hgate : ipGatePasses env req.clientIP = true)
    (hk1 : req.apiKey = some k)
    (hk2 : k ≠ "")
    (happ : getAppByApiKey apps k = some app)
    (hfields : uploadFormFieldsSchema E req.fields = some f)
    (hnobundle : req.files.find? isBundlePart = none) :
    uploadHandler E env apps db store req updateId createdAt = notFoundOutcome db store := by
  have hk2' : (k != "") = true := by simp [hk2]
  simp only [uploadHandler, hgate, if_true, hk1, hk2', happ, hfields, uploadProcess, hnobundle]

/-- C8 witness: a valid authenticated upload whose only file part is an
asset; the handler returns 404 with both stores unchanged. -/
theorem upload_missing_bundle_rejected_witness :
    uploadHandler extFix ⟨none, 0, "https://cdn"⟩ [⟨"acme", "Acme", "key-1"⟩] [rowU1] []
        ⟨none, some "key-1",
          [("channel", "production"), ("runtimeVersion", "1.0.0"), ("platform", "ios")],
          [⟨"assets", "icon.png", "PNG"⟩]⟩ "new-id" "2024-02-02T00:00:00.000Z"
      = notFoundOutcome [rowU1] [] :=
  upload_missing_bundle_rejected extFix ⟨none, 0, "https://cdn"⟩ [⟨"acme", "Acme", "key-1"⟩]
    [rowU1] []
    ⟨none, some "key-1",
      [("channel", "production"), ("runtimeVersion", "1.0.0"), ("platform", "ios")],
      [⟨"assets", "icon.png", "PNG"⟩]⟩ "new-id" "2024-02-02T00:00:00.000Z"
    ⟨"acme", "Acme", "key-1"⟩
    ⟨"production", "1.0.0", "ios", none, none, none⟩ "key-1"
    rfl rfl (by decide) rfl rfl (by decide)

/-! ## C10 -/

/-- Removing every occurrence of field `k` leaves the first value of any
other field unchanged. -/
theorem fieldFirst_filter_ne (fields : List (String × String)) (k k' : String)
    (hne : k' ≠ k) :
    fieldFirst (fields.filter (fun kv => kv.1 != k)) k' = fieldFirst fields k' := by
  unfold fieldFirst
  rw [List.filter_filter]
  have hp : ∀ kv : String × String, ((kv.1 == k') && (kv.1 != k)) = (kv.1 == k') := by
    intro kv
    by_cases h : kv.1 = k'
    · subst h; simp [hne]
    · simp [h]
  simp only [hp]

/-- Removing every occurrence of field `k` makes its first value absent. -/
theorem fieldFirst_filter_self (fields : List (String × String)) (k : String) :
    fieldFirst (fields.filter (fun kv => kv.1 != k)) k = none := by
  unfold fieldFirst
  rw [List.filter_filter]
  have hp : ∀ kv : String × String, ((kv.1 == k) && (kv.1 != k)) = false := by
    intro kv
    by_cases h : kv.1 = k <;> simp [h]
  simp only [hp, List.filter_false]
  rfl

/-- `uploadFormFieldsSchema` only looks at the first values of its six
fields. -/
theorem uploadFormFieldsSchema_congr (E : JsExt) (f1 f2 : List (String × String))
    (h1 : fieldFirst f1 "channel" = fieldFirst f2 "channel")
    (h2 : fieldFirst f1 "runtimeVersion" = fieldFirst f2 "runtimeVersion")
    (h3 : fieldFirst f1 "platform" = fieldFirst f2 "platform")
    (h4 : fieldFirst f1 "commitHash" = fieldFirst f2 "commitHash")
    (h5 : jsonFieldTransform E (fieldFirst f1 "expoConfig")
        = jsonFieldTransform E (fieldFirst f2 "expoConfig"))
    (h6 : jsonFieldTransform E (fieldFirst f1 "metadata")
        = jsonFieldTransform E (fieldFirst f2 "metadata")) :
    uploadFormFieldsSchema E f1 = uploadFormFieldsSchema E f2 := by
  unfold uploadFormFieldsSchema
  rw [h1, h2, h3]
  cases fieldFirst f2 "channel" <;> cases fieldFirst f2 "runtimeVersion" <;>
    cases fieldFirst f2 "platform" <;> try rfl
  rw [h4, h5, h6]

/-- C10: a publish request whose optional `expoConfig` or `metadata` field
holds a string that does not parse as JSON behaves exactly as if that field
were absent: the zod transform degrades it to `null`, so the upload is not
rejected for it, no `expoConfig.json` snapshot is written because of it,
and no extension hints are taken from it. -/
theorem upload_invalid_json_field_ignored (E : JsExt) (env : WorkerEnv)
    (apps : List AppRow) (db : List UpdateRow) (store : Store) (req : UploadRequest)
    (updateId createdAt : String) (k s : String)
    (hk : k = "expoConfig" ∨ k = "metadata")
    (hs : fieldFirst req.fields k = some s)
    (hbad : E.parseJson s = none) :
    uploadHandler E env apps db store req updateId createdAt
      = uploadHandler E env apps db store
          { req with fields := req.fields.filter (fun kv => kv.1 != k) } updateId createdAt := by
  obtain ⟨cip, akey, flds, fls⟩ := req
  simp only [] at hs
  have htrans : jsonFieldTransform E (fieldFirst flds k) = none := by
    rw [hs]
    unfold jsonFieldTransform
    by_cases hse : s == "" <;> simp [hse, hbad]
  have hdrop : jsonFieldTransform E (fieldFirst (flds.filter (fun kv => kv.1 != k)) k) = none := by
    rw [fieldFirst_filter_self]
    rfl
  have hschema : uploadFormFieldsSchema E (flds.filter (fun kv => kv.1 != k))
      = uploadFormFieldsSchema E flds := by
    rcases hk with rfl | rfl
    · exact uploadFormFieldsSchema_congr E _ _
        (fieldFirst_filter_ne _ _ _ (by decide)) (fieldFirst_filter_ne _ _ _ (by decide))
        (fieldFirst_filter_ne _ _ _ (by decide)) (fieldFirst_filter_ne _ _ _ (by decide))
        (by rw [hdrop, htrans])
        (by rw [fieldFirst_filter_ne _ _ _ (by decide)])
    · exact uploadFormFieldsSchema_congr E _ _
        (fieldFirst_filter_ne _ _ _ (by decide)) (fieldFirst_filter_ne _ _ _ (by decide))
        (fieldFirst_filter_ne _ _ _ (by decide)) (fieldFirst_filter_ne _ _ _ (by decide))
        (by rw [fieldFirst_filter_ne _ _ _ (by decide)])
        (by rw [hdrop, htrans])
  simp only [uploadHandler, hschema]

/-- C10 witness: an upload carrying `expoConfig = "not json"` produces the
same outcome as the same upload with the field removed. -/
theorem upload_invalid_json_field_ignored_witness :
    uploadHandler extFix ⟨none, 0, "https://cdn"⟩ [⟨"acme", "Acme", "key-1"⟩] [] []
        ⟨none, some "key-1",
          [("channel", "production"), ("runtimeVersion", "1.0.0"), ("platform", "ios"),
           ("expoConfig", "not json")],
          [⟨"bundle", "app.bundle", "BYTES"⟩]⟩ "id-1" "2024-02-02T00:00:00.000Z"
      = uploadHandler extFix ⟨none, 0, "https://cdn"⟩ [⟨"acme", "Acme", "key-1"⟩] [] []
          ⟨none, some "key-1",
            ([("channel", "production"), ("runtimeVersion", "1.0.0"), ("platform", "ios"),
              ("expoConfig", "not json")].filter (fun kv => kv.1 != "expoConfig")),
            [⟨"bundle", "app.bundle", "BYTES"⟩]⟩ "id-1" "2024-02-02T00:00:00.000Z" :=
  upload_invalid_json_field_ignored extFix ⟨none, 0, "https://cdn"⟩ [⟨"acme", "Acme", "key-1"⟩]
    [] []
    ⟨none, some "key-1",
      [("channel", "production"), ("runtimeVersion", "1.0.0"), ("platform", "ios"),
       ("expoConfig", "not json")],
      [⟨"bundle", "app.bundle", "BYTES"⟩]⟩ "id-1" "2024-02-02T00:00:00.000Z"
    "expoConfig" "not json" (Or.inl rfl) rfl rfl

/-! ## C3 -/

/-- A successful `saveUpdate` certifies that the inserted id was fresh and
appends the row. -/
theorem saveUpdate_eq_some {db : List UpdateRow} {row : UpdateRow} {db1 : List UpdateRow}
    (h : saveUpdate db row = some db1) :
    db.any (fun r => r.id == row.id) = false ∧ db1 = db ++ [row] := by
  unfold saveUpdate at h
  split at h
  · cases h
  · next hcond =>
    injection h with h1
    exact ⟨by simpa using hcond, h1.symm⟩

/-- Exhaustive shape of a commit-stage outcome: either nothing was recorded
and the status is a failure, or the recorded row is `buildUpdateRow`, the
status is 200 and the generated id was fresh. -/
theorem uploadCommit_cases (E : JsExt) (env : WorkerEnv) (db : List UpdateRow)
    (store : Store) (app : AppRow) (f : UploadFields) (bundleFile : UploadFile)
    (assetFiles : List UploadFile) (updateId createdAt : String) :
    ((uploadCommit E env db store app f bundleFile assetFiles updateId createdAt).insertedRow = none
      ∧ (uploadCommit E env db store app f bundleFile assetFiles updateId createdAt).status ≠ 200)
    ∨ ((uploadCommit E env db store app f bundleFile assetFiles updateId createdAt).insertedRow
        = some (buildUpdateRow E env app f bundleFile assetFiles updateId createdAt)
      ∧ (uploadCommit E env db store app f bundleFile assetFiles updateId createdAt).status = 200
      ∧ db.any (fun r => r.id == updateId) = false) := by
  simp only [uploadCommit]
  split
  · exact Or.inl ⟨rfl, by simp⟩
  · split
    · next hsave =>
      exact Or.inl ⟨rfl, by simp⟩
    · next db1 hsave =>
      have hfresh := (saveUpdate_eq_some hsave).1
      by_cases hkeep : env.maxUpdatesToKeep ≤ 0
      · rw [if_pos hkeep]
        exact Or.inr ⟨rfl, rfl, hfresh⟩
      · rw [if_neg hkeep]
        exact Or.inr ⟨rfl, rfl, hfresh⟩

/-- A 200 from the commit stage pins down the recorded row: its id is the
generated one, its launch-asset hash and key are `computeFileHash` of the
bundle bytes, and the generated id was fresh in the pre-insert catalog. -/
theorem uploadCommit_status200 {E : JsExt} {env : WorkerEnv} {db : List UpdateRow}
    {store : Store} {app : AppRow} {f : UploadFields} {bundleFile : UploadFile}
    {assetFiles : List UploadFile} {updateId createdAt : String}
    (h : (uploadCommit E env db store app f bundleFile assetFiles updateId createdAt).status = 200) :
    ∃ row, (uploadCommit E env db store app f bundleFile assetFiles updateId createdAt).insertedRow
        = some row
      ∧ row.id = updateId
      ∧ row.launchAsset.hash = computeFileHash E bundleFile.data .base64
      ∧ row.launchAsset.key = computeFileHash E bundleFile.data .hex
      ∧ db.any (fun r => r.id == updateId) = false := by
  rcases uploadCommit_cases E env db store app f bundleFile assetFiles updateId createdAt with
    ⟨_, hne⟩ | ⟨hrow, _, hfresh⟩
  · exact absurd h hne
  · exact ⟨_, hrow, rfl, rfl, rfl, hfresh⟩

/-- A 200 from the upload route certifies a bundle part was found and pins
down the recorded row as in `uploadCommit_status200`. -/
theorem uploadHandler_status200 {E : JsExt} {env : WorkerEnv} {apps : List AppRow}
    {db : List UpdateRow} {store : Store} {req : UploadRequest} {updateId createdAt : String}
    (h : (uploadHandler E env apps db store req updateId createdAt).status = 200) :
    ∃ b, req.files.find? isBundlePart = some b ∧
      ∃ row, (uploadHandler E env apps db store req updateId createdAt).insertedRow = some row
        ∧ row.id = updateId
        ∧ row.launchAsset.hash = computeFileHash E b.data .base64
        ∧ row.launchAsset.key = computeFileHash E b.data .hex
        ∧ updateId ∉ db.map (fun r => r.id) := by
  by_cases hgate : ipGatePasses env req.clientIP = true
  case neg => exfalso; simp [uploadHandler, hgate, notFoundOutcome] at h
  cases hak : req.apiKey with
  | none => exfalso; simp [uploadHandler, hgate, hak, notFoundOutcome] at h
  | some key =>
    by_cases hke : (key != "") = true
    case neg =>
      exfalso
      have hke' : (key != "") = false := by revert hke; cases key != "" <;> simp
      simp [uploadHandler, hgate, hak, hke', notFoundOutcome] at h
    cases happ : getAppByApiKey apps key with
    | none => exfalso; simp [uploadHandler, hgate, hak, hke, happ, notFoundOutcome] at h
    | some app =>
      cases hf : uploadFormFieldsSchema E req.fields with
      | none =>
        exfalso
        simp [uploadHandler, uploadProcess, hgate, hak, hke, happ, hf, notFoundOutcome] at h
      | some f =>
        cases hb : req.files.find? isBundlePart with
        | none =>
          exfalso
          simp [uploadHandler, uploadProcess, hgate, hak, hke, happ, hf, hb,
            notFoundOutcome] at h
        | some b =>
          have hred : uploadHandler E env apps db store req updateId createdAt
              = uploadCommit E env db store app f b (req.files.filter isAssetPart)
                  updateId createdAt := by
            simp only [uploadHandler, hgate, if_true, hak, hke, happ, uploadProcess, hf, hb]
          rw [hred] at h
          obtain ⟨row, hrow, hid, hhash, hkey, hfresh⟩ := uploadCommit_status200 h
          refine ⟨b, rfl, row, ?_, hid, hhash, hkey, ?_⟩
          · rw [hred]; exact hrow
          · intro hmem
            rw [List.mem_map] at hmem
            obtain ⟨r, hr, hrid⟩ := hmem
            have : db.any (fun r => r.id == updateId) = true := by
              rw [List.any_eq_true]
              exact ⟨r, hr, by simp [hrid]⟩
            rw [this] at hfresh
            cases hfresh

/-- C3: two successful publishes of bit-identical bundle bytes record the
same launch-asset hash (URL-safe unpadded base64 SHA-256) and the same
launch-asset key (lower-case hex SHA-256) — the content address depends only
on the bytes — while the two generated update ids are necessarily distinct,
the id primary key rejecting a duplicate insert (the first update is still
catalogued when the second publish succeeds). -/
theorem upload_content_address_deterministic (E : JsExt) (env : WorkerEnv)
    (apps : List AppRow) (db : List UpdateRow) (store : Store)
    (req1 req2 : UploadRequest) (b1 b2 : UploadFile) (id1 t1 id2 t2 : String)
    (hb1 : req1.files.find? isBundlePart = some b1)
    (hb2 : req2.files.find? isBundlePart = some b2)
    (hdata : b1.data = b2.data)
    (h1 : (uploadHandler E env apps db store req1 id1 t1).status = 200)
    (h2 : (uploadHandler E env apps (uploadHandler E env apps db store req1 id1 t1).db
        (uploadHandler E env apps db store req1 id1 t1).store req2 id2 t2).status = 200)
    (hsurv : id1 ∈ ((uploadHandler E env apps db store req1 id1 t1).db).map (fun r => r.id)) :
    ∃ r1 r2,
      (uploadHandler E env apps db store req1 id1 t1).insertedRow = some r1
      ∧ (uploadHandler E env apps (uploadHandler E env apps db store req1 id1 t1).db
          (uploadHandler E env apps db store req1 id1 t1).store req2 id2 t2).insertedRow = some r2
      ∧ r1.id = id1 ∧ r2.id = id2 ∧ id1 ≠ id2
      ∧ r1.launchAsset.hash = r2.launchAsset.hash
      ∧ r1.launchAsset.key = r2.launchAsset.key
      ∧ r1.launchAsset.hash = computeFileHash E b1.data .base64
      ∧ r1.launchAsset.key = computeFileHash E b1.data .hex := by
  obtain ⟨b1', hb1', r1, hr1, hid1, hh1, hk1, _⟩ := uploadHandler_status200 h1
  obtain ⟨b2', hb2', r2, hr2, hid2, hh2, hk2, hfresh2⟩ := uploadHandler_status200 h2
  rw [hb1] at hb1'
  injection hb1' with hb1e
  rw [hb2] at hb2'
  injection hb2' with hb2e
  subst hb1e
  subst hb2e
  have hne : id1 ≠ id2 := by
    intro hcontra
    refine hfresh2 ?_
    rw [← hcontra]
    exact hsurv
  refine ⟨r1, r2, hr1, hr2, hid1, hid2, hne, ?_, ?_, hh1, hk1⟩
  · rw [hh1, hh2, hdata]
  · rw [hk1, hk2, hdata]

/-- A publish request carrying one bundle part with content `BYTES`. -/
def uploadReqBundle : UploadRequest :=
  ⟨none, some "key-1",
    [("channel", "production"), ("runtimeVersion", "1.0.0"), ("platform", "ios")],
    [⟨"bundle", "app.bundle", "BYTES"⟩]⟩

/-- C3 witness: publishing `BYTES` twice with fresh ids `id-1`, `id-2`
succeeds twice, records equal launch-asset hashes and keys, and the ids
differ. -/
theorem upload_content_address_deterministic_witness :
    ∃ r1 r2,
      (uploadHandler extFix ⟨none, 0, "https://cdn"⟩ [⟨"acme", "Acme", "key-1"⟩] [] []
          uploadReqBundle "id-1" "t1").insertedRow = some r1
      ∧ (uploadHandler extFix ⟨none, 0, "https://cdn"⟩ [⟨"acme", "Acme", "key-1"⟩]
          (uploadHandler extFix ⟨none, 0, "https://cdn"⟩ [⟨"acme", "Acme", "key-1"⟩] [] []
            uploadReqBundle "id-1" "t1").db
          (uploadHandler extFix ⟨none, 0, "https://cdn"⟩ [⟨"acme", "Acme", "key-1"⟩] [] []
            uploadReqBundle "id-1" "t1").store
          uploadReqBundle "id-2" "t2").insertedRow = some r2
      ∧ r1.id = "id-1" ∧ r2.id = "id-2" ∧ "id-1" ≠ "id-2"
      ∧ r1.launchAsset.hash = r2.launchAsset.hash
      ∧ r1.launchAsset.key = r2.launchAsset.key
      ∧ r1.launchAsset.hash = computeFileHash extFix "BYTES" .base64
      ∧ r1.launchAsset.key = computeFileHash extFix "BYTES" .hex :=
  upload_content_address_deterministic extFix ⟨none, 0, "https://cdn"⟩ [⟨"acme", "Acme", "key-1"⟩]
    [] [] uploadReqBundle uploadReqBundle
    ⟨"bundle", "app.bundle", "BYTES"⟩ ⟨"bundle", "app.bundle", "BYTES"⟩
    "id-1" "t1" "id-2" "t2"
    rfl rfl rfl rfl rfl (by decide)

/-! ## C2 -/

/-- `s` is a strictly more recent cohort row than `r`. -/
def strictlyNewer (r s : UpdateRow) : Bool := decide (r.createdAt.toList < s.createdAt.toList)

/-- `M` sequential publishes into one cohort with the retention sweep after
each insert, as `uploadHandler` performs them: append the new row (the
`saveUpdate` insert), then run `cleanupOldUpdates` for the row's cohort. -/
def publishBatch (appId channel runtimeVersion platform : String) (keep : Nat)
    (db : List UpdateRow) (pubs : List UpdateRow) : List UpdateRow :=
  pubs.foldl
    (fun acc r => (cleanupOldUpdates (acc ++ [r]) appId channel runtimeVersion platform keep).2)
    db

/-- The sort underlying the catalog queries permutes its input. -/
theorem sortByCreatedAtDesc_perm (l : List UpdateRow) : (sortByCreatedAtDesc l).Perm l :=
  List.perm_insertionSort rowRecencyGe l

/-- The sort underlying the catalog queries sorts by descending
`created_at`. -/
theorem sortByCreatedAtDesc_sorted (l : List UpdateRow) :
    List.Sorted rowRecencyGe (sortByCreatedAtDesc l) :=
  List.sorted_insertionSort rowRecencyGe l

/-- Inserting a row older than everything in the list lands at the end. -/
theorem orderedInsert_all_lt (a : UpdateRow) (l : List UpdateRow)
    (h : ∀ b ∈ l, a.createdAt.toList < b.createdAt.toList) :
    l.orderedInsert rowRecencyGe a = l ++ [a] := by
  induction l with
  | nil => rfl
  | cons b t ih =>
    have hb : ¬ rowRecencyGe a b := not_le.mpr (h b (List.mem_cons_self b t))
    simp only [List.orderedInsert, if_neg hb]
    rw [ih (fun x hx => h x (List.mem_cons_of_mem b hx))]
    rfl

/-- Sorting a strictly increasing list by descending `created_at` reverses
it. -/
theorem sortDesc_of_increasing (l : List UpdateRow)
    (h : l.Pairwise (fun x y => x.createdAt.toList < y.createdAt.toList)) :
    sortByCreatedAtDesc l = l.reverse := by
  induction l with
  | nil => rfl
  | cons x t ih =>
    rw [List.pairwise_cons] at h
    show (List.insertionSort rowRecencyGe t).orderedInsert rowRecencyGe x = (x :: t).reverse
    have ht : List.insertionSort rowRecencyGe t = t.reverse := ih h.2
    rw [ht, orderedInsert_all_lt x t.reverse (fun b hb => h.1 b (List.mem_reverse.mp hb)),
      List.reverse_cons]

/-- In a descending-sorted list with pairwise distinct timestamps, a member
survives `drop k` exactly when at least `k` rows are strictly newer. -/
theorem mem_drop_iff_count (l : List UpdateRow)
    (hs : List.Sorted rowRecencyGe l)
    (hd : l.Pairwise (fun a b => a.createdAt ≠ b.createdAt)) :
    ∀ (k : Nat) (r : UpdateRow), r ∈ l →
      (r ∈ l.drop k ↔ k ≤ l.countP (strictlyNewer r)) := by
  induction l with
  | nil => intro k r hr; cases hr
  | cons x t ih =>
    intro k r hr
    rw [List.sorted_cons] at hs
    rw [List.pairwise_cons] at hd
    cases k with
    | zero => simp [hr]
    | succ k =>
      rw [List.drop_succ_cons, List.countP_cons]
      rcases List.mem_cons.mp hr with rfl | hrt
      · have hcx : strictlyNewer r r = false := by
          simp [strictlyNewer]
        have hzero : t.countP (strictlyNewer r) = 0 := by
          rw [List.countP_eq_zero]
          intro s hst
          simp only [strictlyNewer, decide_eq_true_eq]
          exact not_lt.mpr (hs.1 s hst)
        rw [hcx]
        simp only [Bool.false_eq_true, if_false, hzero, Nat.add_zero]
        constructor
        · intro hmem
          exact absurd rfl (hd.1 r (List.mem_of_mem_drop hmem))
        · intro hle
          omega
      · have hcx : strictlyNewer r x = true := by
          simp only [strictlyNewer, decide_eq_true_eq]
          exact lt_of_le_of_ne (hs.1 r hrt) (fun he => (hd.1 r hrt) (String.ext he.symm))
        rw [hcx]
        simp only [if_true]
        rw [ih hs.2 hd.2 k r hrt]
        omega

/-- Sequential publishes with the retention sweep after each insert keep
exactly the `keep` most recent cohort rows: starting from a catalog whose
cohort slice is an increasing-`created_at` list of at most `keep` rows,
publishing strictly newer rows one at a time leaves the cohort slice equal
to the last `keep` of the combined row sequence. -/
theorem publishBatch_filter (a c rv p : String) (keep : Nat) (hkeep : 0 < keep)
    (pubs : List UpdateRow) :
    ∀ (db : List UpdateRow),
      (∀ r ∈ pubs, matchesCohort a c rv p r = true) →
      (((db ++ pubs).map (fun x => x.id)).Nodup) →
      ((db.filter (matchesCohort a c rv p) ++ pubs).Pairwise
        (fun x y => x.createdAt.toList < y.createdAt.toList)) →
      (db.filter (matchesCohort a c rv p)).length ≤ keep →
      (publishBatch a c rv p keep db pubs).filter (matchesCohort a c rv p)
        = (db.filter (matchesCohort a c rv p) ++ pubs).drop
            ((db.filter (matchesCohort a c rv p)).length + pubs.length - keep) := by
  induction pubs with
  | nil =>
    intro db _ _ _ hlen
    simp only [publishBatch, List.foldl_nil, List.append_nil, List.length_nil, Nat.add_zero]
    rw [Nat.sub_eq_zero_of_le hlen, List.drop_zero]
  | cons r rest ih =>
    intro db hall hnodup hinc hlen
    have hr : matchesCohort a c rv p r = true := hall r (List.mem_cons_self r rest)
    have hrest : ∀ x ∈ rest, matchesCohort a c rv p x = true :=
      fun x hx => hall x (List.mem_cons_of_mem r hx)
    have hm : (db ++ [r]).filter (matchesCohort a c rv p)
        = db.filter (matchesCohort a c rv p) ++ [r] := by
      rw [List.filter_append]
      simp [hr]
    have hstep : publishBatch a c rv p keep db (r :: rest)
        = publishBatch a c rv p keep
            ((cleanupOldUpdates (db ++ [r]) a c rv p keep).2) rest := rfl
    by_cases hle : (db.filter (matchesCohort a c rv p)).length + 1 ≤ keep
    · -- the sweep is a no-op: the cohort still fits within the threshold
      have hclean : cleanupOldUpdates (db ++ [r]) a c rv p keep = ([], db ++ [r]) := by
        have hcnt : (sortByCreatedAtDesc
            ((db ++ [r]).filter (matchesCohort a c rv p))).length ≤ keep := by
          rw [(sortByCreatedAtDesc_perm _).length_eq, hm, List.length_append]
          simpa using hle
        simp only [cleanupOldUpdates]
        rw [if_pos hcnt]
      rw [hstep, hclean]
      have hnodup1 : (((db ++ [r]) ++ rest).map (fun x => x.id)).Nodup := by
        rw [← List.append_cons]
        exact hnodup
      have hinc1 : (((db ++ [r]).filter (matchesCohort a c rv p) ++ rest).Pairwise
          (fun x y => x.createdAt.toList < y.createdAt.toList)) := by
        rw [hm, List.append_assoc, List.singleton_append]
        exact hinc
      have hlen1 : ((db ++ [r]).filter (matchesCohort a c rv p)).length ≤ keep := by
        rw [hm, List.length_append]
        simpa using hle
      rw [ih (db ++ [r]) hrest hnodup1 hinc1 hlen1]
      rw [hm]
      have hidx : (db.filter (matchesCohort a c rv p) ++ [r]).length + rest.length - keep
          = (db.filter (matchesCohort a c rv p)).length + (r :: rest).length - keep := by
        simp only [List.length_append, List.length_cons, List.length_nil]
        omega
      rw [hidx, List.append_assoc, List.singleton_append]
    · -- the cohort is full: the sweep deletes its oldest row
      have hLk : (db.filter (matchesCohort a c rv p)).length = keep := by omega
      obtain ⟨y, tl, hcur⟩ : ∃ y tl, db.filter (matchesCohort a c rv p) = y :: tl := by
        cases hc : db.filter (matchesCohort a c rv p) with
        | nil => rw [hc] at hLk; simp at hLk; omega
        | cons y tl => exact ⟨y, tl, rfl⟩
      have htl : tl.length + 1 = keep := by
        rw [hcur] at hLk
        simpa using hLk
      have hincCurR : ((db.filter (matchesCohort a c rv p) ++ [r]).Pairwise
          (fun x y => x.createdAt.toList < y.createdAt.toList)) := by
        refine List.Pairwise.sublist ?_ hinc
        exact List.Sublist.append_left (List.cons_sublist_cons.mpr (List.nil_sublist rest)) _
      have hsort : sortByCreatedAtDesc ((db ++ [r]).filter (matchesCohort a c rv p))
          = r :: (tl.reverse ++ [y]) := by
        rw [hm, sortDesc_of_increasing _ hincCurR, hcur]
        simp
      have hdrop : (r :: (tl.reverse ++ [y])).drop keep = [y] := by
        rw [← htl, List.drop_succ_cons]
        have hlrev : tl.length = tl.reverse.length := (List.length_reverse tl).symm
        rw [hlrev, List.drop_left]
      have hdel : cleanupOldUpdates (db ++ [r]) a c rv p keep
          = ([y.id], (db ++ [r]).filter (fun x => !(([y.id] : List String).contains x.id))) := by
        simp only [cleanupOldUpdates]
        rw [hsort]
        have hlength : (r :: (tl.reverse ++ [y])).length = keep + 1 := by
          simp only [List.length_cons, List.length_append, List.length_reverse,
            List.length_nil]
          omega
        rw [hlength, if_neg (by omega), hdrop]
        simp only [List.map_cons, List.map_nil, List.isEmpty_cons, Bool.false_eq_true,
          if_false]
      rw [hstep, hdel]
      have hdbNodup : (db.map (fun x => x.id)).Nodup := by
        rw [List.map_append] at hnodup
        exact (List.nodup_append.mp hnodup).1
      have hcurSub : List.Sublist (y :: tl) db := by
        rw [← hcur]
        exact List.filter_sublist db
      have hyid_tl : y.id ∉ tl.map (fun x => x.id) := by
        have h1 : (((y :: tl).map (fun x => x.id))).Nodup :=
          List.Nodup.sublist (List.Sublist.map _ hcurSub) hdbNodup
        rw [List.map_cons, List.nodup_cons] at h1
        exact h1.1
      have hyr : y.id ≠ r.id := by
        have hyin : y.id ∈ db.map (fun x => x.id) :=
          List.mem_map_of_mem _ (hcurSub.subset (List.mem_cons_self y tl))
        have hrin : r.id ∈ ((r :: rest).map fun x => x.id) :=
          List.mem_map_of_mem _ (List.mem_cons_self r rest)
        rw [List.map_append] at hnodup
        have hdisj := (List.nodup_append.mp hnodup).2.2
        intro he
        exact hdisj hyin (by rw [he]; exact hrin)
      have hfilt : (((db ++ [r]).filter (fun x => !(([y.id] : List String).contains x.id))).filter
          (matchesCohort a c rv p)) = tl ++ [r] := by
        rw [List.filter_comm, hm, hcur, List.cons_append, List.filter_cons]
        have hqy : (!(([y.id] : List String).contains y.id)) = false := by
          simp [List.contains_cons]
        rw [hqy]
        simp only [Bool.false_eq_true, if_false]
        rw [List.filter_eq_self.mpr]
        intro x hx
        rcases List.mem_append.mp hx with hxtl | hxr
        · have hne : x.id ≠ y.id := by
            intro he
            exact hyid_tl (he ▸ List.mem_map_of_mem _ hxtl)
          simp [List.contains_cons, hne]
        · have hxr' : x = r := by simpa using hxr
          have hne2 : x.id ≠ y.id := by
            rw [hxr']
            exact fun he => hyr he.symm
          simp [List.contains_cons, hne2]
      have hnodup1 : ((((db ++ [r]).filter (fun x => !(([y.id] : List String).contains x.id)))
          ++ rest).map (fun x => x.id)).Nodup := by
        refine List.Nodup.sublist (List.Sublist.map _ ?_) hnodup
        have h1 : List.Sublist
            (((db ++ [r]).filter (fun x => !(([y.id] : List String).contains x.id))) ++ rest)
            ((db ++ [r]) ++ rest) :=
          List.Sublist.append_right (List.filter_sublist _) rest
        have h2 : (db ++ [r]) ++ rest = db ++ r :: rest := (List.append_cons db r rest).symm
        rw [h2] at h1
        exact h1
      have hinc1 : ((((db ++ [r]).filter (fun x => !(([y.id] : List String).contains x.id))).filter
          (matchesCohort a c rv p) ++ rest).Pairwise (fun x y => x.createdAt.toList < y.createdAt.toList)) := by
        rw [hfilt, List.append_assoc, List.singleton_append]
        rw [hcur, List.cons_append] at hinc
        exact (List.pairwise_cons.mp hinc).2
      have hlen1 : (((db ++ [r]).filter (fun x => !(([y.id] : List String).contains x.id))).filter
          (matchesCohort a c rv p)).length ≤ keep := by
        rw [hfilt, List.length_append]
        simp only [List.length_nil, List.length_cons]
        omega
      rw [ih _ hrest hnodup1 hinc1 hlen1, hfilt, hcur]
      have hidx1 : (tl ++ [r]).length + rest.length - keep = rest.length := by
        simp only [List.length_append, List.length_cons, List.length_nil]
        omega
      have hidx2 : (y :: tl).length + (r :: rest).length - keep = rest.length + 1 := by
        simp only [List.length_cons]
        omega
      rw [hidx1, hidx2, List.cons_append, List.drop_succ_cons, List.append_assoc,
        List.singleton_append]

/-- When more than `keepCount` rows match, `cleanupOldUpdates` returns the
ids after the first `keepCount` of the descending sort and deletes exactly
the rows carrying those ids. -/
theorem cleanupOldUpdates_shape (db : List UpdateRow) (a c rv p : String) (keep : Nat)
    (hgt : keep < (db.filter (matchesCohort a c rv p)).length) :
    cleanupOldUpdates db a c rv p keep
      = (((sortByCreatedAtDesc (db.filter (matchesCohort a c rv p))).drop keep).map
          (fun r => r.id),
        db.filter (fun r =>
          !((((sortByCreatedAtDesc (db.filter (matchesCohort a c rv p))).drop keep).map
              (fun r => r.id)).contains r.id))) := by
  have hlenEq := (sortByCreatedAtDesc_perm (db.filter (matchesCohort a c rv p))).length_eq
  simp only [cleanupOldUpdates]
  rw [if_neg (by rw [hlenEq]; omega)]
  have hne : (((sortByCreatedAtDesc (db.filter (matchesCohort a c rv p))).drop keep).map
      (fun r => r.id)) ≠ [] := by
    apply List.ne_nil_of_length_pos
    rw [List.length_map, List.length_drop, hlenEq]
    omega
  rw [if_neg (by
    intro hcont
    exact hne (List.isEmpty_iff.mp hcont))]

/-- C2: `cleanupOldUpdates` orders the cohort by `created_at` descending and
deletes exactly the rows after the first `keepCount`, returning their ids:
(i) with at most `keepCount` matching rows it is a no-op returning `[]`;
(ii) it deletes exactly `matching - keepCount` rows; (iii) a cohort row's id
is returned exactly when `keepCount` or more cohort rows are strictly more
recent; (iv) a row survives exactly when its id was not returned; (v) rows
of other cohorts are never touched; and (vi) after `M > N` sequential
publishes into one empty cohort with `keepCount = N`, exactly the `N` most
recent updates remain and the `M - N` oldest are gone. -/
theorem cleanupOldUpdates_retention (a c rv p : String) (keep : Nat)
    (db : List UpdateRow) (db0 pubs : List UpdateRow)
    (hnodup : (db.map (fun r => r.id)).Nodup)
    (hdistinct : (db.filter (matchesCohort a c rv p)).Pairwise
      (fun r s => r.createdAt ≠ s.createdAt))
    (hkeep : 0 < keep)
    (h0 : db0.filter (matchesCohort a c rv p) = [])
    (hpubs : ∀ r ∈ pubs, matchesCohort a c rv p r = true)
    (hnodup0 : ((db0 ++ pubs).map (fun r => r.id)).Nodup)
    (hinc : pubs.Pairwise (fun x y => x.createdAt.toList < y.createdAt.toList)) :
    ((db.filter (matchesCohort a c rv p)).length ≤ keep →
        cleanupOldUpdates db a c rv p keep = ([], db))
    ∧ (cleanupOldUpdates db a c rv p keep).1.length
        = (db.filter (matchesCohort a c rv p)).length - keep
    ∧ (∀ r ∈ db.filter (matchesCohort a c rv p),
        (r.id ∈ (cleanupOldUpdates db a c rv p keep).1 ↔
          keep ≤ (db.filter (matchesCohort a c rv p)).countP (strictlyNewer r)))
    ∧ (∀ r, r ∈ (cleanupOldUpdates db a c rv p keep).2 ↔
        r ∈ db ∧ r.id ∉ (cleanupOldUpdates db a c rv p keep).1)
    ∧ (∀ r ∈ db, matchesCohort a c rv p r = false →
        r ∈ (cleanupOldUpdates db a c rv p keep).2)
    ∧ (publishBatch a c rv p keep db0 pubs).filter (matchesCohort a c rv p)
        = pubs.drop (pubs.length - keep) := by
  have hperm := sortByCreatedAtDesc_perm (db.filter (matchesCohort a c rv p))
  have hlenEq := hperm.length_eq
  have hsorted := sortByCreatedAtDesc_sorted (db.filter (matchesCohort a c rv p))
  have hpairs : (sortByCreatedAtDesc (db.filter (matchesCohort a c rv p))).Pairwise
      (fun r s => r.createdAt ≠ s.createdAt) :=
    (List.Perm.pairwise_iff (fun h => Ne.symm h) hperm).mpr hdistinct
  have hinj : ∀ x ∈ db, ∀ y ∈ db, x.id = y.id → x = y := by
    intro x hx y hy
    exact List.inj_on_of_nodup_map hnodup hx hy
  have hnoop : (db.filter (matchesCohort a c rv p)).length ≤ keep →
      cleanupOldUpdates db a c rv p keep = ([], db) := by
    intro hlen
    simp only [cleanupOldUpdates]
    rw [if_pos (by rw [hlenEq]; exact hlen)]
  have hscenario : (publishBatch a c rv p keep db0 pubs).filter (matchesCohort a c rv p)
      = pubs.drop (pubs.length - keep) := by
    have h1 : ((db0.filter (matchesCohort a c rv p) ++ pubs).Pairwise
        (fun x y => x.createdAt.toList < y.createdAt.toList)) := by
      rw [h0]
      simpa using hinc
    have h2 : (db0.filter (matchesCohort a c rv p)).length ≤ keep := by
      rw [h0]
      simp
    have hsc := publishBatch_filter a c rv p keep hkeep pubs db0 hpubs hnodup0 h1 h2
    rw [h0] at hsc
    simpa using hsc
  have hcountlt : ∀ r ∈ db.filter (matchesCohort a c rv p),
      (db.filter (matchesCohort a c rv p)).countP (strictlyNewer r)
        < (db.filter (matchesCohort a c rv p)).length := by
    intro r hr
    have h1 := List.countP_le_length (l := db.filter (matchesCohort a c rv p)) (strictlyNewer r)
    rcases eq_or_lt_of_le h1 with heq | hlt
    · exfalso
      have := List.countP_eq_length.mp heq r hr
      simp [strictlyNewer] at this
    · exact hlt
  by_cases hlen : (db.filter (matchesCohort a c rv p)).length ≤ keep
  · have hc := hnoop hlen
    refine ⟨hnoop, ?_, ?_, ?_, ?_, hscenario⟩
    · rw [hc]
      simp [Nat.sub_eq_zero_of_le hlen]
    · intro r hr
      rw [hc]
      simp only [List.not_mem_nil, false_iff]
      intro hcont
      have := hcountlt r hr
      omega
    · intro r
      rw [hc]
      simp
    · intro r hrdb _
      rw [hc]
      exact hrdb
  · push_neg at hlen
    have hshape := cleanupOldUpdates_shape db a c rv p keep hlen
    have hdropmem : ∀ r ∈ db.filter (matchesCohort a c rv p),
        (r.id ∈ ((sortByCreatedAtDesc (db.filter (matchesCohort a c rv p))).drop keep).map
            (fun x => x.id)
          ↔ r ∈ (sortByCreatedAtDesc (db.filter (matchesCohort a c rv p))).drop keep) := by
      intro r hr
      constructor
      · intro hmem
        rw [List.mem_map] at hmem
        obtain ⟨r', hr', hid⟩ := hmem
        have hr'' : r' ∈ db.filter (matchesCohort a c rv p) :=
          hperm.mem_iff.mp (List.mem_of_mem_drop hr')
        have heq : r' = r :=
          hinj r' (List.mem_of_mem_filter hr'') r (List.mem_of_mem_filter hr) hid
        exact heq ▸ hr'
      · intro hmem
        exact List.mem_map_of_mem _ hmem
    refine ⟨hnoop, ?_, ?_, ?_, ?_, hscenario⟩
    · rw [hshape]
      simp only [List.length_map, List.length_drop, hlenEq]
    · intro r hr
      rw [hshape]
      simp only []
      rw [hdropmem r hr]
      rw [mem_drop_iff_count _ hsorted hpairs keep r (hperm.mem_iff.mpr hr)]
      rw [List.Perm.countP_eq _ hperm]
    · intro r
      rw [hshape]
      simp only [List.mem_filter, Bool.not_eq_true']
      constructor
      · rintro ⟨hdbm, hbn⟩
        refine ⟨hdbm, fun hmem => ?_⟩
        have : (((sortByCreatedAtDesc (db.filter (matchesCohort a c rv p))).drop keep).map
            (fun r => r.id)).contains r.id = true := by
          exact List.elem_iff.mpr hmem
        rw [this] at hbn
        cases hbn
      · rintro ⟨hdbm, hnm⟩
        refine ⟨hdbm, ?_⟩
        cases hcontains : (((sortByCreatedAtDesc (db.filter (matchesCohort a c rv p))).drop
            keep).map (fun r => r.id)).contains r.id with
        | false => rfl
        | true => exact absurd (List.elem_iff.mp hcontains) hnm
    · intro r hrdb hnc
      rw [hshape]
      rw [List.mem_filter]
      refine ⟨hrdb, ?_⟩
      cases hcontains : (((sortByCreatedAtDesc (db.filter (matchesCohort a c rv p))).drop
          keep).map (fun r => r.id)).contains r.id with
      | false => rfl
      | true =>
        exfalso
        have hmem := List.elem_iff.mp hcontains
        rw [List.mem_map] at hmem
        obtain ⟨r', hr', hid⟩ := hmem
        have hr'' : r' ∈ db.filter (matchesCohort a c rv p) :=
          hperm.mem_iff.mp (List.mem_of_mem_drop hr')
        have heq : r' = r :=
          hinj r' (List.mem_of_mem_filter hr'') r hrdb hid
        have hcoh : matchesCohort a c rv p r = true := by
          rw [← heq]
          exact (List.mem_filter.mp hr'').2
        rw [hcoh] at hnc
        cases hnc

/-- A second, more recent catalog row for the `test-app` cohort. -/
def rowU2 : UpdateRow :=
  { rowU1 with
      id := "update-2"
      createdAt := "2024-01-02T00:00:00.000Z"
      expoConfigJson := none }

/-- C2 witness: the retention characterisation applied to a two-row cohort
with `keepCount = 1`, and to two sequential publishes into an empty
catalog. -/
theorem cleanupOldUpdates_retention_witness :
    (([rowU1, rowU2].filter (matchesCohort "test-app" "production" "1.0.0" "ios")).length ≤ 1 →
        cleanupOldUpdates [rowU1, rowU2] "test-app" "production" "1.0.0" "ios" 1
          = ([], [rowU1, rowU2]))
    ∧ (cleanupOldUpdates [rowU1, rowU2] "test-app" "production" "1.0.0" "ios" 1).1.length
        = ([rowU1, rowU2].filter (matchesCohort "test-app" "production" "1.0.0" "ios")).length - 1
    ∧ (∀ r ∈ [rowU1, rowU2].filter (matchesCohort "test-app" "production" "1.0.0" "ios"),
        (r.id ∈ (cleanupOldUpdates [rowU1, rowU2] "test-app" "production" "1.0.0" "ios" 1).1 ↔
          1 ≤ ([rowU1, rowU2].filter
            (matchesCohort "test-app" "production" "1.0.0" "ios")).countP (strictlyNewer r)))
    ∧ (∀ r, r ∈ (cleanupOldUpdates [rowU1, rowU2] "test-app" "production" "1.0.0" "ios" 1).2 ↔
        r ∈ [rowU1, rowU2]
          ∧ r.id ∉ (cleanupOldUpdates [rowU1, rowU2] "test-app" "production" "1.0.0" "ios" 1).1)
    ∧ (∀ r ∈ [rowU1, rowU2], matchesCohort "test-app" "production" "1.0.0" "ios" r = false →
        r ∈ (cleanupOldUpdates [rowU1, rowU2] "test-app" "production" "1.0.0" "ios" 1).2)
    ∧ (publishBatch "test-app" "production" "1.0.0" "ios" 1 [] [rowU1, rowU2]).filter
          (matchesCohort "test-app" "production" "1.0.0" "ios")
        = [rowU1, rowU2].drop ([rowU1, rowU2].length - 1) :=
  cleanupOldUpdates_retention "test-app" "production" "1.0.0" "ios" 1
    [rowU1, rowU2] [] [rowU1, rowU2]
    (by decide) (by decide) (by decide) rfl (by decide) (by decide) (by decide)

end OTA
